import Mathlib

/-!
Shallow embedding of the state-management core of the Discord relay bot in
src/bot.py: per-channel conversation histories with FIFO trimming
(append_user_turn, append_bot_turn, trim_channel_history), a pickle
snapshot with save/load and defensive clamping (StateManager.save,
StateManager.load), the atomic file writer (StateManager._atomic_write), the
debounced save scheduler (StateManager.schedule_save), and the message and
command handlers (on_message, history, reset_channel).

Python dicts are embedded as association lists with unique keys
(insertion-ordered, as Python dicts are); timestamps as natural numbers of
logical time units; the asyncio event loop as an explicit discrete-event
simulation that processes requests in time order and fires the single
pending sleep task when its wake time is due.
-/

/-- Per-channel history bound from the source configuration
(MAX_HISTORY_TURNS = 80 in bot.py). -/
def MAX_HISTORY_TURNS : Nat := 80


/-- One conversational turn, mirroring the dict records built by
append_user_turn and append_bot_turn: role, content, timestamp, and
author fields that are present only on user turns. -/
structure Turn where
  role : String
  content : String
  timestamp : Nat
  author_id : Option String
  author_name : Option String
  deriving Repr, DecidableEq


/-- A message author as used by append_user_turn: id, name and an optional
display_name attribute. -/
structure Author where
  id : String
  name : String
  display_name : Option String
  deriving Repr, DecidableEq


/-- Embedding of getattr(author, "display_name", None) or author.name:
a missing or empty (falsy) display_name falls back to author.name. -/
def authorDisplay (a : Author) : String :=
  match a.display_name with
  | some d => if d = "" then a.name else d
  | none => a.name


/-- The user-turn record appended by append_user_turn. -/
def mkUserTurn (a : Author) (content : String) (ts : Nat) : Turn :=
  { role := "user", content := content, timestamp := ts,
    author_id := some a.id, author_name := some (authorDisplay a) }


/-- The bot-turn record appended by append_bot_turn (timestamp = utcnow()). -/
def mkBotTurn (content : String) (now : Nat) : Turn :=
  { role := "bot", content := content, timestamp := now,
    author_id := none, author_name := none }


/-! ### Association-list embedding of Python dicts -/

/-- Dict lookup: first entry with the given key. -/
def lookupA {α : Type} : List (String × α) → String → Option α
  | [], _ => none
  | p :: rest, k => if p.1 = k then some p.2 else lookupA rest k


/-- Dict assignment d[k] = v: replace the value in place if the key is
present, otherwise append the new entry at the end (Python dicts preserve
insertion order). -/
def insertA {α : Type} : List (String × α) → String → α → List (String × α)
  | [], k, v => [(k, v)]
  | p :: rest, k, v => if p.1 = k then (k, v) :: rest else p :: insertA rest k v


/-- Dict removal d.pop(k, None): afterwards the key is absent. -/
def eraseA {α : Type} : List (String × α) → String → List (String × α)
  | [], _ => []
  | p :: rest, k => if p.1 = k then eraseA rest k else p :: eraseA rest k


/-! ### History store -/

/-- channel_histories: channel id → list of turn records. -/
abbrev Store : Type := List (String × List Turn)


/-- The history list a channel currently has (an absent channel reads as
the fresh empty list, matching channel_histories.get(ch_id, [])). -/
def histC (st : Store) (ch : String) : List Turn :=
  (lookupA st ch).getD []


/-- The last n elements of a list (Python l[-n:] for n ≥ 1, and the
clamping result of the while-pop(0) trimming loop). -/
def takeLast {α : Type} (n : Nat) (l : List α) : List α :=
  l.drop (l.length - n)


/-- ensure_channel_history: create an empty history if the channel key is
absent. -/
def ensure_channel_history (st : Store) (ch : String) : Store :=
  if lookupA st ch = none then insertA st ch [] else st


/-- The while-loop of trim_channel_history: pop the front element while the
length exceeds MAX_HISTORY_TURNS. -/
def popWhileOver (l : List Turn) : List Turn :=
  if _h : l.length > MAX_HISTORY_TURNS then popWhileOver l.tail else l
termination_by l.length
decreasing_by
  rw [List.length_tail]
  omega


/-- trim_channel_history: trim the channel's list in place; when the key is
absent the loop runs on a fresh empty list and the store is unchanged. -/
def trim_channel_history (st : Store) (ch : String) : Store :=
  match lookupA st ch with
  | none => st
  | some l => insertA st ch (popWhileOver l)


/-- Common body of append_user_turn and append_bot_turn: ensure the channel
exists, append the record to its list, then trim. -/
def appendTurn (st : Store) (ch : String) (t : Turn) : Store :=
  trim_channel_history
    (insertA (ensure_channel_history st ch) ch
      (histC (ensure_channel_history st ch) ch ++ [t])) ch


/-- append_user_turn: ensure the channel, append the user record, trim. -/
def append_user_turn (st : Store) (ch : String) (a : Author) (content : String)
    (ts : Nat) : Store :=
  appendTurn st ch (mkUserTurn a content ts)


/-- append_bot_turn: ensure the channel, append the bot record stamped with
the current time, trim. -/
def append_bot_turn (st : Store) (ch : String) (content : String) (now : Nat) : Store :=
  appendTurn st ch (mkBotTurn content now)


/-! ### Sequences of appends (claim C2) -/

/-- One append operation on a channel: a user turn (as recorded by
on_message for every inbound message) or a bot turn. -/
inductive AppendOp where
  | user (a : Author) (content : String) (ts : Nat)
  | bot (content : String) (now : Nat)
  deriving Repr, DecidableEq


/-- The turn record an operation appends (its arrival-order payload). -/
def turnOfOp : AppendOp → Turn
  | .user a content ts => mkUserTurn a content ts
  | .bot content now => mkBotTurn content now


/-- Apply one append operation to the store. -/
def applyOp (ch : String) (st : Store) (op : AppendOp) : Store :=
  match op with
  | .user a content ts => append_user_turn st ch a content ts
  | .bot content now => append_bot_turn st ch content now


/-- Run a sequence of append operations on channel ch starting from the
empty store. -/
def runOps (ch : String) (ops : List AppendOp) : Store :=
  ops.foldl (applyOp ch) []


/-- The turns of a sequence of operations, in arrival order. -/
def arrivalTurns (ops : List AppendOp) : List Turn :=
  ops.map turnOfOp


/-! ### Snapshot serialization (StateManager.save / StateManager.load) -/

/-- A pickled value found under one channel key: either a list of
turn-like records or some non-list value (the tag only makes the
counterexamples concrete). -/
inductive PHistVal where
  | list (turns : List Turn)
  | other (tag : String)
  deriving Repr, DecidableEq


/-- The pickled value under the top-level channel_histories key: a dict of
channel entries or some non-dict value. -/
inductive PCHVal where
  | dict (entries : List (String × PHistVal))
  | other (tag : String)
  deriving Repr, DecidableEq


/-- The unpickled top-level object: a dict with an optional
channel_histories key (obj.get returns the default empty dict when the key
is absent), or a non-dict value on which .get raises. -/
inductive PObj where
  | dict (channel_histories : Option PCHVal)
  | nondict (tag : String)
  deriving Repr, DecidableEq


/-- The on-disk snapshot file: absent, unpickleable bytes, or a pickled
object. -/
inductive Disk where
  | absent
  | corrupt
  | content (obj : PObj)
  deriving Repr, DecidableEq


/-- Severity of a log record emitted by load. -/
inductive LogLevel where
  | info
  | warning
  | error
  deriving Repr, DecidableEq


/-- StateManager.save: pickle the dict holding channel_histories (the lock,
executor offload and atomic write are modeled separately; serializing the
in-memory store itself cannot fail). -/
def StateManager.save (st : Store) : Disk :=
  Disk.content (PObj.dict (some (PCHVal.dict
    (st.map fun p => (p.1, PHistVal.list p.2)))))


/-- Body of the load loop: channel_histories[ch_id] = hist[-MAX:] for every
list-valued entry; non-list entries are skipped without any log record. -/
def loadStep (acc : Store) (p : String × PHistVal) : Store :=
  match p.2 with
  | PHistVal.list l => insertA acc p.1 (takeLast MAX_HISTORY_TURNS l)
  | PHistVal.other _ => acc


/-- The load loop over the entries of a well-formed channel dict, run after
channel_histories.clear(). -/
def loadDict (entries : List (String × PHistVal)) : Store :=
  entries.foldl loadStep []


/-- The store entry a pickled channel entry contributes: list values kept
clamped, non-list values dropped. -/
def entryProj (p : String × PHistVal) : Option (String × List Turn) :=
  match p.2 with
  | PHistVal.list l => some (p.1, takeLast MAX_HISTORY_TURNS l)
  | PHistVal.other _ => none


/-- StateManager.load: a missing file logs a warning and returns; an
unpickling failure, a .get on a non-dict object, or a non-dict
channel_histories value raises, is caught and logged as a failure with the
store untouched (the ValueError is raised before clear()); a dict value
clears the store and refills it from the list-valued entries, clamped. -/
def StateManager.load (st : Store) (d : Disk) : Store × List LogLevel :=
  match d with
  | Disk.absent => (st, [LogLevel.warning])
  | Disk.corrupt => (st, [LogLevel.error])
  | Disk.content (PObj.nondict _) => (st, [LogLevel.error])
  | Disk.content (PObj.dict none) => ([], [LogLevel.info])
  | Disk.content (PObj.dict (some (PCHVal.other _))) => (st, [LogLevel.error])
  | Disk.content (PObj.dict (some (PCHVal.dict entries))) =>
      (loadDict entries, [LogLevel.info])


/-- A concrete malformed snapshot: channel a maps to a non-list value,
channel b to a well-formed one-turn list. -/
def malformedDisk : Disk :=
  Disk.content (PObj.dict (some (PCHVal.dict
    [("a", PHistVal.other "int"), ("b", PHistVal.list [mkBotTurn "hi" 0])])))


/-! ### Session registry, reset command (claim C9) -/

/-- channel_sessions: channel id → live chat-session handle (the handle is
opaque; a stored none mirrors an explicit None value). -/
abbrev Sessions : Type := List (String × Option Unit)


/-- The observable outcome of reset_channel: both registries afterwards,
plus how many direct state.save() calls and schedule_save() calls it
made. -/
structure ResetOutcome where
  histories : Store
  sessions : Sessions
  immediateSaves : Nat
  scheduledSaves : Nat
  deriving Repr, DecidableEq


/-- reset_channel: pop the channel's history, pop its session (the
try/except around the teardown drops the handle on both paths), then await
state.save() directly — one immediate save, no debounced schedule. -/
def reset_channel (st : Store) (sess : Sessions) (ch : String) : ResetOutcome :=
  { histories := eraseA st ch
    sessions := eraseA sess ch
    immediateSaves := 1
    scheduledSaves := 0 }


/-! ### The history command (claim C8) -/

/-- Result of the history command: the store after the call (the command
first calls ensure_channel_history), the selected slice, and the formatted
display lines. -/
structure HistoryView where
  store : Store
  view : List Turn
  parts : List String
  deriving Repr, DecidableEq


/-- One display line of the history command: t.get("author_name", "user")
and content truncated to 140 characters. -/
def formatTurn (t : Turn) : String :=
  if t.role = "user" then
    "user:" ++ t.author_name.getD "user" ++ ": " ++ t.content.take 140
  else
    "bot: " ++ t.content.take 140


/-- The history command: ensure the channel, clamp n with
max(1, min(n, 30)), take the channel's last n turns, format them. -/
def historyCmd (st : Store) (ch : String) (n : Int) : HistoryView :=
  { store := ensure_channel_history st ch
    view := takeLast (max 1 (min n 30)).toNat (histC (ensure_channel_history st ch) ch)
    parts := (takeLast (max 1 (min n 30)).toNat
        (histC (ensure_channel_history st ch) ch)).map formatTurn }


/-! ### Atomic writer (StateManager._atomic_write, claim C4) -/

/-- The file-system slice _atomic_write touches: the bytes at the target
path (none = file absent), the bytes in the temporary file, and whether
the temporary file has been fsynced to stable storage. -/
structure FS where
  target : Option (List Nat)
  temp : Option (List Nat)
  tempSynced : Bool
  deriving Repr, DecidableEq


/-- One micro-step of _atomic_write: create the temporary file, write one
more byte of the payload into it, fsync it, or os.replace it over the
target. -/
inductive WStep where
  | create
  | writeByte (i : Nat)
  | fsync
  | rename
  deriving Repr, DecidableEq


/-- Effect of one micro-step on the file system (payload data fixed). -/
def applyStep (data : List Nat) (fs : FS) : WStep → FS
  | WStep.create => { fs with temp := some [], tempSynced := false }
  | WStep.writeByte i => { fs with temp := some (data.take (i + 1)), tempSynced := false }
  | WStep.fsync => { fs with tempSynced := true }
  | WStep.rename => { target := fs.temp, temp := none, tempSynced := fs.tempSynced }


/-- The steps before the rename: NamedTemporaryFile creation, the byte
writes of tmp.write(data) with flush, and os.fsync. -/
def preSteps (data : List Nat) : List WStep :=
  WStep.create :: (List.range data.length).map WStep.writeByte ++ [WStep.fsync]


/-- The full _atomic_write step sequence: write the whole payload to the
temporary file, force it to disk, and only then rename over the target. -/
def atomicWriteSteps (data : List Nat) : List WStep :=
  preSteps data ++ [WStep.rename]


/-- Run a step sequence over the file system. -/
def runSteps (data : List Nat) (fs : FS) (steps : List WStep) : FS :=
  steps.foldl (applyStep data) fs


/-! ### Debounced save scheduler (StateManager.schedule_save) -/

/-- The scheduler fields of StateManager: _save_scheduled_at, whether
_save_task currently holds a task object (the code only ever compares it
with None), and the single still-sleeping runner task with its captured
expected_when and its wake time. A state with markerSet = true and
live = none is a non-None _save_task whose task has already finished —
exactly what the runner's finally-block leaves behind when superseded. -/
structure Sched where
  scheduledAt : Option Nat
  markerSet : Bool
  live : Option (Nat × Nat)
  deriving Repr, DecidableEq


/-- The fresh StateManager: no timestamp recorded, _save_task = None. -/
def Sched.init : Sched :=
  { scheduledAt := none, markerSet := false, live := none }


/-- schedule_save at logical time t: record t as _save_scheduled_at, then
spawn the runner (capturing expected_when = t, waking at t + D) only if
_save_task is None. -/
def schedule_save (D : Nat) (s : Sched) (t : Nat) : Sched :=
  if s.markerSet then { s with scheduledAt := some t }
  else { scheduledAt := some t, markerSet := true, live := some (t, t + D) }


/-- The runner waking after its sleep: if _save_scheduled_at still equals
the captured expected_when it performs the save and its finally-block
clears _save_task; otherwise it returns without saving and the
finally-block leaves _save_task set, because _save_scheduled_at is no
longer equal to expected_when. Returns the state and whether it saved. -/
def runnerWake (s : Sched) (exp : Nat) : Sched × Bool :=
  if s.scheduledAt = some exp then
    ({ scheduledAt := s.scheduledAt, markerSet := false, live := none }, true)
  else
    ({ s with live := none }, false)


/-- Discrete-event run of the asyncio loop: process schedule_save requests
in time order, letting the live runner wake first whenever its wake time
is due, and after the last request letting a remaining runner wake.
Returns the times of all performed saves and the final scheduler state. -/
def runRequests (D : Nat) : Sched → List Nat → List Nat × Sched
  | s, [] =>
    match s.live with
    | none => ([], s)
    | some (exp, w) =>
      (if (runnerWake s exp).2 then [w] else [], (runnerWake s exp).1)
  | s, t :: rest =>
    match s.live with
    | some (exp, w) =>
      if w ≤ t then
        ((if (runnerWake s exp).2 then [w] else [])
            ++ (runRequests D (schedule_save D (runnerWake s exp).1 t) rest).1,
          (runRequests D (schedule_save D (runnerWake s exp).1 t) rest).2)
      else
        runRequests D (schedule_save D s t) rest
    | none => runRequests D (schedule_save D s t) rest


/-! ### The message handler (on_message, claim C7) -/

/-- truncate: return the message unchanged when within the limit,
otherwise cut it at the limit and append a visible ellipsis. -/
def truncate (msg : String) (limit : Nat) : String :=
  if msg.length ≤ limit then msg else msg.take limit ++ "…"


/-- An inbound Discord message as on_message consumes it: channel id,
whether the author is a bot, the author, content, creation time, whether
the message starts with a direct mention of this bot, and the author
mention string used in replies. -/
structure Msg where
  ch : String
  authorIsBot : Bool
  author : Author
  content : String
  createdAt : Nat
  mentionFirst : Bool
  mention : String
  deriving Repr, DecidableEq


/-- Outcomes of the external calls on_message makes: whether
client.chats.create succeeds, the text produced by send_message (none
models a raised exception), and whether channel.send of the reply
succeeds. -/
structure MsgEnv where
  sessionCreateOk : Bool
  genResult : Option String
  sendOk : Bool
  deriving Repr, DecidableEq


/-- ensure_channel_session: a present non-None handle is kept; otherwise
the session is created and stored, or the creation raises (none). -/
def ensure_channel_session (sess : Sessions) (ch : String) (createOk : Bool) :
    Option Sessions :=
  match lookupA sess ch with
  | some (some _) => some sess
  | _ => if createOk then some (insertA sess ch (some ())) else none


/-- on_message: messages from bots are ignored; every other message gets
its user turn appended (followed by a debounced save request); only a
message that starts with a direct mention produces a reply; session
creation failure, model failure, and send failure each abort the handler
after an apology or a log, in particular a failed channel.send returns
before append_bot_turn runs; a successful send appends the bot turn. -/
def on_message (st : Store) (sess : Sessions) (m : Msg) (env : MsgEnv) (now : Nat) :
    Store × Sessions :=
  if m.authorIsBot then (st, sess)
  else
    if m.mentionFirst = false then
      (append_user_turn st m.ch m.author m.content m.createdAt, sess)
    else
      match ensure_channel_session sess m.ch env.sessionCreateOk with
      | none => (append_user_turn st m.ch m.author m.content m.createdAt, sess)
      | some sess1 =>
        match env.genResult with
        | none => (append_user_turn st m.ch m.author m.content m.createdAt, sess1)
        | some raw =>
          if env.sendOk then
            (append_bot_turn (append_user_turn st m.ch m.author m.content m.createdAt)
                m.ch
                (truncate (m.mention ++ " "
                  ++ (if raw.trim = "" then "I couldn\x27t generate a response."
                      else raw.trim)) 1900)
                now,
              sess1)
          else (append_user_turn st m.ch m.author m.content m.createdAt, sess1)


/-! Theorems: the claim theorems, their supporting lemmas, witnesses
and counterexamples. -/

theorem lookupA_insertA_self {α : Type} (l : List (String × α)) (k : String) (v : α) :
    lookupA (insertA l k v) k = some v := by
  induction l with
  | nil => simp [insertA, lookupA]
  | cons p rest ih =>
    by_cases h : p.1 = k
    · simp [insertA, h, lookupA]
    · simp [insertA, h, lookupA, ih]


theorem lookupA_insertA_ne {α : Type} (l : List (String × α)) (k k' : String) (v : α)
    (h : k' ≠ k) : lookupA (insertA l k v) k' = lookupA l k' := by
  have h' : ¬ k = k' := fun e => h e.symm
  induction l with
  | nil => simp [insertA, lookupA, h']
  | cons p rest ih =>
    by_cases hp : p.1 = k
    · subst hp
      simp [insertA, lookupA, h']
    · simp [insertA, hp, lookupA, ih]


theorem insertA_of_lookupA_none {α : Type} (l : List (String × α)) (k : String) (v : α)
    (h : lookupA l k = none) : insertA l k v = l ++ [(k, v)] := by
  induction l with
  | nil => simp [insertA]
  | cons p rest ih =>
    by_cases hp : p.1 = k
    · simp [lookupA, hp] at h
    · simp [lookupA, hp] at h
      simp [insertA, hp, ih h]


theorem lookupA_append_of_none {α : Type} (l₁ l₂ : List (String × α)) (k : String)
    (h : lookupA l₁ k = none) : lookupA (l₁ ++ l₂) k = lookupA l₂ k := by
  induction l₁ with
  | nil => simp
  | cons p rest ih =>
    by_cases hp : p.1 = k
    · simp [lookupA, hp] at h
    · simp [lookupA, hp] at h
      simp [lookupA, hp, ih h]


theorem lookupA_eraseA {α : Type} (l : List (String × α)) (k k' : String) :
    lookupA (eraseA l k) k' = if k' = k then none else lookupA l k' := by
  induction l with
  | nil => simp [eraseA, lookupA]
  | cons p rest ih =>
    by_cases hp : p.1 = k
    · subst hp
      by_cases hk : k' = p.1
      · subst hk
        simp [eraseA, ih]
      · have hp' : ¬ p.1 = k' := fun e => hk e.symm
        simp [eraseA, ih, hk, lookupA, hp']
    · by_cases hp' : p.1 = k'
      · have hk : ¬ k' = k := fun e => hp (hp'.trans e)
        simp [eraseA, hp, lookupA, hp', hk]
      · simp [eraseA, hp, lookupA, hp', ih]


theorem popWhileOver_eq_aux :
    ∀ (n : Nat) (l : List Turn), l.length ≤ n →
      popWhileOver l = takeLast MAX_HISTORY_TURNS l := by
  intro n
  induction n with
  | zero =>
    intro l hl
    have hnil : l = [] := List.length_eq_zero.mp (Nat.le_zero.mp hl)
    subst hnil
    rw [popWhileOver]
    simp [takeLast]
  | succ n ih =>
    intro l hl
    rw [popWhileOver]
    split
    · rename_i hlen
      rw [ih l.tail (by rw [List.length_tail]; omega)]
      unfold takeLast
      rw [List.length_tail, ← List.drop_one, List.drop_drop]
      congr 1
      omega
    · rename_i hlen
      unfold takeLast
      have h0 : l.length - MAX_HISTORY_TURNS = 0 := by omega
      rw [h0, List.drop_zero]


theorem popWhileOver_eq_takeLast (l : List Turn) :
    popWhileOver l = takeLast MAX_HISTORY_TURNS l :=
  popWhileOver_eq_aux l.length l (Nat.le_refl _)


theorem lookupA_ensure_self (st : Store) (ch : String) :
    lookupA (ensure_channel_history st ch) ch = some (histC st ch) := by
  unfold ensure_channel_history histC
  by_cases h : lookupA st ch = none
  · simp [h, lookupA_insertA_self]
  · cases hv : lookupA st ch with
    | none => exact absurd hv h
    | some l => simp [h, hv]


theorem lookupA_ensure_ne (st : Store) (ch k : String) (h : k ≠ ch) :
    lookupA (ensure_channel_history st ch) k = lookupA st k := by
  unfold ensure_channel_history
  by_cases hc : lookupA st ch = none
  · simp [hc, lookupA_insertA_ne st ch k [] h]
  · simp [hc]


theorem takeLast_eq_reverse_take {α : Type} (n : Nat) (l : List α) :
    takeLast n l = (l.reverse.take n).reverse := by
  unfold takeLast
  rw [List.take_reverse, List.reverse_reverse]


theorem length_takeLast_le {α : Type} (n : Nat) (l : List α) :
    (takeLast n l).length ≤ n := by
  unfold takeLast
  rw [List.length_drop]
  omega


theorem takeLast_append_one {α : Type} (n : Nat) (hn : 1 ≤ n) (xs : List α) (t : α) :
    takeLast n (takeLast n xs ++ [t]) = takeLast n (xs ++ [t]) := by
  obtain ⟨m, rfl⟩ : ∃ m, n = m + 1 := ⟨n - 1, by omega⟩
  simp only [takeLast_eq_reverse_take, List.reverse_append, List.reverse_cons,
    List.reverse_reverse, List.reverse_nil, List.nil_append, List.singleton_append,
    List.take_succ_cons, List.take_take]
  congr 3
  omega


theorem histC_appendTurn (st : Store) (ch : String) (t : Turn) :
    histC (appendTurn st ch t) ch = takeLast MAX_HISTORY_TURNS (histC st ch ++ [t]) := by
  unfold appendTurn
  have h1 : histC (ensure_channel_history st ch) ch = histC st ch := by
    unfold histC
    rw [lookupA_ensure_self]
    rfl
  rw [h1]
  have h2 : lookupA (insertA (ensure_channel_history st ch) ch (histC st ch ++ [t])) ch
      = some (histC st ch ++ [t]) := lookupA_insertA_self _ _ _
  simp only [trim_channel_history, h2]
  unfold histC
  rw [lookupA_insertA_self, popWhileOver_eq_takeLast]
  rfl


theorem histC_applyOp (ch : String) (st : Store) (op : AppendOp) :
    histC (applyOp ch st op) ch
      = takeLast MAX_HISTORY_TURNS (histC st ch ++ [turnOfOp op]) := by
  cases op with
  | user a content ts => exact histC_appendTurn st ch (mkUserTurn a content ts)
  | bot content now => exact histC_appendTurn st ch (mkBotTurn content now)


theorem runOps_fold_invariant (ch : String) :
    ∀ (ops : List AppendOp) (st : Store) (arr : List Turn),
      histC st ch = takeLast MAX_HISTORY_TURNS arr →
      histC (ops.foldl (applyOp ch) st) ch
        = takeLast MAX_HISTORY_TURNS (arr ++ arrivalTurns ops) := by
  intro ops
  induction ops with
  | nil =>
    intro st arr h
    simpa [arrivalTurns] using h
  | cons op rest ih =>
    intro st arr h
    have hstep : histC (applyOp ch st op) ch
        = takeLast MAX_HISTORY_TURNS (arr ++ [turnOfOp op]) := by
      rw [histC_applyOp, h]
      exact takeLast_append_one MAX_HISTORY_TURNS (by norm_num [MAX_HISTORY_TURNS]) arr _
    calc histC ((op :: rest).foldl (applyOp ch) st) ch
        = histC (rest.foldl (applyOp ch) (applyOp ch st op)) ch := rfl
      _ = takeLast MAX_HISTORY_TURNS ((arr ++ [turnOfOp op]) ++ arrivalTurns rest) :=
          ih _ _ hstep
      _ = takeLast MAX_HISTORY_TURNS (arr ++ arrivalTurns (op :: rest)) := by
          simp [arrivalTurns, List.append_assoc]


/-- Claim C2: after every sequence of append_user_turn / append_bot_turn
operations on a channel, the channel's history is exactly the most recent
MAX_HISTORY_TURNS turns in arrival order (so its length never exceeds the
bound, and eviction is strict FIFO from the oldest end); since the theorem
quantifies over all sequences, it holds immediately after every append. -/
theorem append_bound_fifo_retention (ch : String) (ops : List AppendOp) :
    histC (runOps ch ops) ch = takeLast MAX_HISTORY_TURNS (arrivalTurns ops)
    ∧ (histC (runOps ch ops) ch).length ≤ MAX_HISTORY_TURNS := by
  have hbase : histC ([] : Store) ch = takeLast MAX_HISTORY_TURNS [] := rfl
  have h := runOps_fold_invariant ch ops [] [] hbase
  refine ⟨by simpa [runOps] using h, ?_⟩
  have h' : histC (runOps ch ops) ch = takeLast MAX_HISTORY_TURNS (arrivalTurns ops) := by
    simpa [runOps] using h
  rw [h']
  exact length_takeLast_le _ _


theorem foldl_loadStep_append (entries : List (String × PHistVal)) :
    ∀ (acc : Store),
      (∀ p ∈ entries, lookupA acc p.1 = none) →
      (entries.map Prod.fst).Nodup →
      entries.foldl loadStep acc = acc ++ entries.filterMap entryProj := by
  induction entries with
  | nil =>
    intro acc _ _
    simp
  | cons p rest ih =>
    intro acc hfresh hnd
    simp only [List.map_cons, List.nodup_cons] at hnd
    have hkne : ∀ q ∈ rest, q.1 ≠ p.1 := by
      intro q hq e
      exact hnd.1 (List.mem_map.mpr ⟨q, hq, e⟩)
    cases hp2 : p.2 with
    | other tag =>
      have hstep : loadStep acc p = acc := by simp [loadStep, hp2]
      rw [List.foldl_cons, hstep,
        ih acc (fun q hq => hfresh q (List.mem_cons_of_mem _ hq)) hnd.2]
      simp [entryProj, hp2]
    | list l =>
      have hstep : loadStep acc p
          = acc ++ [(p.1, takeLast MAX_HISTORY_TURNS l)] := by
        simp only [loadStep, hp2]
        exact insertA_of_lookupA_none acc p.1 _ (hfresh p (List.mem_cons_self _ _))
      have hfresh' : ∀ q ∈ rest,
          lookupA (acc ++ [(p.1, takeLast MAX_HISTORY_TURNS l)]) q.1 = none := by
        intro q hq
        rw [lookupA_append_of_none _ _ _ (hfresh q (List.mem_cons_of_mem _ hq))]
        simp [lookupA, (hkne q hq).symm]
      rw [List.foldl_cons, hstep, ih _ hfresh' hnd.2]
      simp [entryProj, hp2]


theorem filterMap_entryProj_map (st : Store) :
    (st.map fun p => (p.1, PHistVal.list p.2)).filterMap entryProj
      = st.map fun p => (p.1, takeLast MAX_HISTORY_TURNS p.2) := by
  induction st with
  | nil => rfl
  | cons p rest ih => simp [entryProj, ih]


/-- Claim C3: save followed by load reproduces the channel mapping, each
history clamped to its most recent MAX_HISTORY_TURNS turns, so content,
role and order of the retained turns are preserved and histories within
the bound are reproduced exactly. The hypothesis is the key-uniqueness
invariant every Python dict has. -/
theorem save_load_roundtrip (cur st : Store) (hnd : (st.map Prod.fst).Nodup) :
    (StateManager.load cur (StateManager.save st)).1
      = st.map fun p => (p.1, takeLast MAX_HISTORY_TURNS p.2) := by
  have hnd' : ((st.map fun p => (p.1, PHistVal.list p.2)).map Prod.fst).Nodup := by
    simpa [List.map_map, Function.comp] using hnd
  have hfresh : ∀ q ∈ st.map fun p => (p.1, PHistVal.list p.2),
      lookupA ([] : Store) q.1 = none := fun q _ => rfl
  show loadDict (st.map fun p => (p.1, PHistVal.list p.2))
      = st.map fun p => (p.1, takeLast MAX_HISTORY_TURNS p.2)
  unfold loadDict
  rw [foldl_loadStep_append _ [] hfresh hnd', filterMap_entryProj_map]
  rfl


/-- Witness for save_load_roundtrip at a concrete two-channel store. -/
theorem save_load_roundtrip_witness :
    (StateManager.load []
        (StateManager.save [("1", [mkBotTurn "hello" 5]), ("2", [])])).1
      = ([("1", [mkBotTurn "hello" 5]), ("2", [])] : Store).map
          fun p => (p.1, takeLast MAX_HISTORY_TURNS p.2) :=
  save_load_roundtrip [] [("1", [mkBotTurn "hello" 5]), ("2", [])] (by decide)


/-- Counterexample to claim C6: on a snapshot in which one channel key maps
to a non-list value, load does not proceed with an empty store (it keeps
the well-formed channel b) and logs no warning (only an info record). -/
theorem load_malformed_counterexample :
    (StateManager.load [] malformedDisk).1 = [("b", [mkBotTurn "hi" 0])]
    ∧ (StateManager.load [] malformedDisk).1 ≠ []
    ∧ LogLevel.warning ∉ (StateManager.load [] malformedDisk).2 := by
  decide


/-- Claim C6 as amended: load never raises (it is total); a missing file,
unpickleable bytes, a non-dict top-level object or a non-dict
channel_histories value leave the store untouched (hence empty at startup)
with a warning logged for the missing file and an error logged otherwise;
a well-formed dict replaces the store with exactly its list-valued entries
clamped to MAX_HISTORY_TURNS, silently dropping non-list channel values,
so the resulting store need not be empty and only an info record is
logged. -/
theorem load_malformed_fallback (st : Store) (tag : String)
    (entries : List (String × PHistVal)) (hnd : (entries.map Prod.fst).Nodup) :
    StateManager.load st Disk.absent = (st, [LogLevel.warning])
    ∧ StateManager.load st Disk.corrupt = (st, [LogLevel.error])
    ∧ StateManager.load st (Disk.content (PObj.nondict tag)) = (st, [LogLevel.error])
    ∧ StateManager.load st (Disk.content (PObj.dict (some (PCHVal.other tag))))
        = (st, [LogLevel.error])
    ∧ StateManager.load st (Disk.content (PObj.dict (some (PCHVal.dict entries))))
        = (entries.filterMap entryProj, [LogLevel.info]) := by
  refine ⟨rfl, rfl, rfl, rfl, ?_⟩
  show (loadDict entries, [LogLevel.info]) = (entries.filterMap entryProj, [LogLevel.info])
  unfold loadDict
  rw [foldl_loadStep_append entries [] (fun q _ => rfl) hnd]
  rfl


/-- Witness for load_malformed_fallback at a concrete mixed snapshot. -/
theorem load_malformed_fallback_witness :
    StateManager.load [] (Disk.content (PObj.dict (some (PCHVal.dict
        [("a", PHistVal.other "int"), ("c", PHistVal.list [])]))))
      = ([("a", PHistVal.other "int"), ("c", PHistVal.list [])].filterMap entryProj,
          [LogLevel.info]) :=
  (load_malformed_fallback [] "x"
    [("a", PHistVal.other "int"), ("c", PHistVal.list [])] (by decide)).2.2.2.2


/-- Claim C9: reset_channel leaves the channel's history absent and its
session absent, performs exactly one immediate save (state.save directly,
not the debounced schedule_save), and leaves every other channel's history
and session unchanged. -/
theorem reset_channel_frame (st : Store) (sess : Sessions) (ch : String) :
    (∀ k, lookupA (reset_channel st sess ch).histories k
        = if k = ch then none else lookupA st k)
    ∧ (∀ k, lookupA (reset_channel st sess ch).sessions k
        = if k = ch then none else lookupA sess k)
    ∧ (reset_channel st sess ch).immediateSaves = 1
    ∧ (reset_channel st sess ch).scheduledSaves = 0 :=
  ⟨fun k => lookupA_eraseA st ch k, fun k => lookupA_eraseA sess ch k, rfl, rfl⟩


/-- Counterexample to claim C8: querying history for a channel that has no
key yet inserts an empty history for it, so the History Store mapping (its
key set) is not identical before and after the call. -/
theorem historyCmd_counterexample :
    (historyCmd [] "c" 12).store = [("c", [])]
    ∧ ([("c", [])] : Store) ≠ ([] : Store) := by
  decide


/-- Claim C8 as amended: the history command returns the last n turns with
n clamped to [1, 30], and it never changes any channel's turn data; but it
is not fully read-only on the mapping — when the queried channel key is
absent, an empty history is inserted for it, so the key set may grow by
that one channel; every other key is untouched. -/
theorem historyCmd_spec (st : Store) (ch : String) (n : Int) :
    (historyCmd st ch n).view
        = takeLast (max 1 (min n 30)).toNat (histC st ch)
    ∧ (∀ k, lookupA (historyCmd st ch n).store k
        = if k = ch then some (histC st ch) else lookupA st k)
    ∧ (∀ k, histC (historyCmd st ch n).store k = histC st k)
    ∧ (historyCmd st ch n).parts = (historyCmd st ch n).view.map formatTurn := by
  have hv : histC (ensure_channel_history st ch) ch = histC st ch := by
    unfold histC
    rw [lookupA_ensure_self]
    rfl
  have hlook : ∀ k, lookupA (historyCmd st ch n).store k
      = if k = ch then some (histC st ch) else lookupA st k := by
    intro k
    by_cases hk : k = ch
    · subst hk
      simp [historyCmd, lookupA_ensure_self]
    · simp [historyCmd, lookupA_ensure_ne st ch k hk, hk]
  refine ⟨?_, hlook, ?_, rfl⟩
  · show takeLast (max 1 (min n 30)).toNat (histC (ensure_channel_history st ch) ch) = _
    rw [hv]
  · intro k
    unfold histC
    rw [hlook k]
    by_cases hk : k = ch
    · simp [hk, histC]
    · simp [hk]


theorem target_invariant (data : List Nat) :
    ∀ (l : List WStep) (fs : FS), (∀ s ∈ l, s ≠ WStep.rename) →
      (runSteps data fs l).target = fs.target := by
  intro l
  induction l with
  | nil => intro fs _; rfl
  | cons s rest ih =>
    intro fs hs
    have hrest : ∀ x ∈ rest, x ≠ WStep.rename :=
      fun x hx => hs x (List.mem_cons_of_mem _ hx)
    have hstep : (applyStep data fs s).target = fs.target := by
      cases s with
      | create => rfl
      | writeByte i => rfl
      | fsync => rfl
      | rename => exact absurd rfl (hs _ (List.mem_cons_self _ _))
    calc (runSteps data fs (s :: rest)).target
        = (runSteps data (applyStep data fs s) rest).target := rfl
      _ = (applyStep data fs s).target := ih _ hrest
      _ = fs.target := hstep


theorem rename_not_mem_preSteps (data : List Nat) :
    ∀ s ∈ preSteps data, s ≠ WStep.rename := by
  intro s hs
  unfold preSteps at hs
  rcases List.mem_cons.mp hs with h | h
  · subst h
    intro e
    exact WStep.noConfusion e
  · rcases List.mem_append.mp h with h' | h'
    · rcases List.mem_map.mp h' with ⟨i, _, rfl⟩
      intro e
      exact WStep.noConfusion e
    · rcases List.mem_singleton.mp h' with rfl
      intro e
      exact WStep.noConfusion e


theorem run_writes (data : List Nat) :
    ∀ (n : Nat) (fs : FS),
      runSteps data fs ((List.range n).map WStep.writeByte)
        = if n = 0 then fs
          else { fs with temp := some (data.take n), tempSynced := false } := by
  intro n
  induction n with
  | zero => intro fs; rfl
  | succ m ih =>
    intro fs
    unfold runSteps
    rw [List.range_succ, List.map_append, List.foldl_append]
    have h := ih fs
    unfold runSteps at h
    rw [h]
    by_cases hm : m = 0
    · subst hm
      simp [applyStep]
    · simp [hm, applyStep]


theorem run_preSteps (data : List Nat) (fs : FS) :
    runSteps data fs (preSteps data)
      = { fs with temp := some data, tempSynced := true } := by
  have hw := run_writes data data.length { fs with temp := some [], tempSynced := false }
  have hmid : runSteps data { fs with temp := some [], tempSynced := false }
      ((List.range data.length).map WStep.writeByte)
      = { fs with temp := some data, tempSynced := false } := by
    rw [hw]
    by_cases h0 : data.length = 0
    · have hd : data = [] := List.length_eq_zero.mp h0
      subst hd
      simp
    · simp [h0, List.take_length]
  show List.foldl (applyStep data) fs
      ((WStep.create :: (List.range data.length).map WStep.writeByte) ++ [WStep.fsync]) = _
  simp only [List.foldl_append, List.foldl_cons, List.foldl_nil]
  have hc : applyStep data fs WStep.create
      = { fs with temp := some [], tempSynced := false } := rfl
  rw [hc]
  unfold runSteps at hmid
  rw [hmid]
  rfl


/-- Claim C4: interrupting _atomic_write at any micro-step boundary before
the final rename leaves the target path untouched (old contents intact, or
still absent on a first-ever save) — no truncated or partial payload is
ever observable at the target; running all steps installs exactly the full
payload; and in the state just before the rename the temporary file holds
the complete payload and has been forced to stable storage, so the rename
happens only after the full write and the fsync. -/
theorem atomic_write_crash_safe (fs : FS) (data : List Nat) (k : Nat) :
    (runSteps data fs ((atomicWriteSteps data).take k)).target
        = (if k < (atomicWriteSteps data).length then fs.target else some data)
    ∧ (runSteps data fs (preSteps data)).temp = some data
    ∧ (runSteps data fs (preSteps data)).tempSynced = true := by
  refine ⟨?_, by rw [run_preSteps], by rw [run_preSteps]⟩
  by_cases hk : k < (atomicWriteSteps data).length
  · have hlen : (atomicWriteSteps data).length = (preSteps data).length + 1 := by
      simp [atomicWriteSteps]
    have hkle : k ≤ (preSteps data).length := by omega
    have htake : (atomicWriteSteps data).take k = (preSteps data).take k := by
      unfold atomicWriteSteps
      rw [List.take_append_of_le_length hkle]
    rw [htake, if_pos hk]
    exact target_invariant data _ fs
      (fun s hs => rename_not_mem_preSteps data s (List.take_subset _ _ hs))
  · have htake : (atomicWriteSteps data).take k = atomicWriteSteps data :=
      List.take_of_length_le (by omega)
    rw [htake, if_neg hk]
    show (runSteps data fs (preSteps data ++ [WStep.rename])).target = some data
    unfold runSteps
    rw [List.foldl_append]
    have h := run_preSteps data fs
    unfold runSteps at h
    rw [h]
    rfl


theorem runRequests_dead (D : Nat) :
    ∀ (reqs : List Nat) (s : Sched), s.markerSet = true → s.live = none →
      (runRequests D s reqs).1 = []
      ∧ (runRequests D s reqs).2.markerSet = true
      ∧ (runRequests D s reqs).2.live = none := by
  intro reqs
  induction reqs with
  | nil =>
    intro s hm hl
    simp [runRequests, hl, hm]
  | cons t rest ih =>
    intro s hm hl
    have hs : schedule_save D s t = { s with scheduledAt := some t } := by
      simp [schedule_save, hm]
    have hrec := ih (schedule_save D s t) (by simp [hs, hm]) (by simp [hs, hl])
    simpa [runRequests, hl] using hrec


theorem runRequests_superseded (D : Nat) :
    ∀ (reqs : List Nat) (s : Sched) (exp w a : Nat),
      s.live = some (exp, w) → s.markerSet = true → s.scheduledAt = some a →
      a ≠ exp → (∀ t ∈ reqs, t ≠ exp) →
      (runRequests D s reqs).1 = []
      ∧ (runRequests D s reqs).2.markerSet = true := by
  intro reqs
  induction reqs with
  | nil =>
    intro s exp w a hl hm ha hne _
    have hwake : runnerWake s exp = ({ s with live := none }, false) := by
      simp [runnerWake, ha, hne]
    simp [runRequests, hl, hwake, hm]
  | cons t rest ih =>
    intro s exp w a hl hm ha hne hmem
    have htne : t ≠ exp := hmem t (List.mem_cons_self _ _)
    by_cases hw : w ≤ t
    · have hwake : runnerWake s exp = ({ s with live := none }, false) := by
        simp [runnerWake, ha, hne]
      have hdead := runRequests_dead D rest
          (schedule_save D { s with live := none } t)
          (by simp [schedule_save, hm]) (by simp [schedule_save, hm])
      simp [runRequests, hl, hw, hwake, hdead.1, hdead.2.1]
    · have hs : schedule_save D s t = { s with scheduledAt := some t } := by
        simp [schedule_save, hm]
      have hrec := ih (schedule_save D s t) exp w t (by simp [hs, hl])
          (by simp [hs, hm]) (by simp [hs]) htne
          (fun q hq => hmem q (List.mem_cons_of_mem _ hq))
      simpa [runRequests, hl, hw] using hrec


theorem burst_wedged (D t0 t1 : Nat) (rest : List Nat)
    (h01 : t0 < t1) (h1D : t1 < t0 + D) (hrest : ∀ t ∈ rest, t0 < t) :
    (runRequests D Sched.init (t0 :: t1 :: rest)).1 = []
    ∧ (runRequests D Sched.init (t0 :: t1 :: rest)).2.markerSet = true := by
  have hnotdue : ¬ (t0 + D ≤ t1) := by omega
  have hstep1 : runRequests D Sched.init (t0 :: t1 :: rest)
      = runRequests D (⟨some t0, true, some (t0, t0 + D)⟩ : Sched) (t1 :: rest) := rfl
  have hstep2 : runRequests D (⟨some t0, true, some (t0, t0 + D)⟩ : Sched) (t1 :: rest)
      = runRequests D (⟨some t1, true, some (t0, t0 + D)⟩ : Sched) rest := by
    simp only [runRequests]
    rw [if_neg hnotdue]
    rfl
  rw [hstep1, hstep2]
  exact runRequests_superseded D rest _ t0 (t0 + D) t1 rfl rfl rfl
    (by omega) (fun q hq => by have := hrest q hq; omega)


/-- Claim C1 is false on the code: for a burst of N ≥ 2 schedule_save
calls in which the second call arrives strictly within the debounce window
of the first (as every burst with gaps below the interval does), the code
performs ZERO saves — the runner spawned by the first call wakes
superseded, aborts without saving, and its finally-block never clears
_save_task, so no replacement task is ever spawned — whereas the claim
requires exactly one save once the interval has elapsed from the last
call of the burst. -/
theorem schedule_save_burst_performs_no_save (D t0 t1 : Nat) (rest : List Nat)
    (h01 : t0 < t1) (h1D : t1 < t0 + D) (hrest : ∀ t ∈ rest, t0 < t) :
    (runRequests D Sched.init (t0 :: t1 :: rest)).1 = [] :=
  (burst_wedged D t0 t1 rest h01 h1D hrest).1


/-- Witness for schedule_save_burst_performs_no_save: debounce 3 time
units, schedule_save called at times 0 and 2 — no save is ever
performed. -/
theorem schedule_save_burst_performs_no_save_witness :
    (runRequests 3 Sched.init [0, 2]).1 = [] :=
  schedule_save_burst_performs_no_save 3 0 2 [] (by decide) (by decide) (by simp)


/-- Claim C5: in every execution in which the pending runner wakes and
finds itself superseded (a second schedule_save arrived strictly inside
the first call's debounce window), it returns without saving and without
clearing _save_task (markerSet stays true forever), so no later
schedule_save call — whatever requests follow — ever spawns another
runner, and no debounced save is ever performed again for the rest of the
run. -/
theorem superseded_runner_wedges_scheduler (D t0 t1 : Nat) (rest : List Nat)
    (h01 : t0 < t1) (h1D : t1 < t0 + D) (hrest : ∀ t ∈ rest, t0 < t) :
    (runRequests D Sched.init (t0 :: t1 :: rest)).1 = []
    ∧ (runRequests D Sched.init (t0 :: t1 :: rest)).2.markerSet = true :=
  burst_wedged D t0 t1 rest h01 h1D hrest


/-- Witness for superseded_runner_wedges_scheduler: debounce 4, calls at
times 1, 3 and a late call at 10 — still no save, marker still set. -/
theorem superseded_runner_wedges_scheduler_witness :
    (runRequests 4 Sched.init [1, 3, 10]).1 = []
    ∧ (runRequests 4 Sched.init [1, 3, 10]).2.markerSet = true :=
  superseded_runner_wedges_scheduler 4 1 3 [10] (by decide) (by decide) (by decide)


/-- Claim C10: a single schedule_save with no other requests performs
exactly one save, at its wake time t1 + D; and a further schedule_save
issued once that save has completed (at or after the wake time) performs a
second independent save at t2 + D. -/
theorem schedule_save_single_and_isolated (D t1 t2 : Nat) (h : t1 + D ≤ t2) :
    (runRequests D Sched.init [t1]).1 = [t1 + D]
    ∧ (runRequests D Sched.init [t1, t2]).1 = [t1 + D, t2 + D] := by
  constructor
  · simp [runRequests, runnerWake, Sched.init, schedule_save]
  · simp [runRequests, runnerWake, Sched.init, schedule_save, h]


/-- Witness for schedule_save_single_and_isolated: debounce 3, a call at
time 0 saves at 3; calls at 0 and 5 save at 3 and 8. -/
theorem schedule_save_single_and_isolated_witness :
    (runRequests 3 Sched.init [0]).1 = [0 + 3]
    ∧ (runRequests 3 Sched.init [0, 5]).1 = [0 + 3, 5 + 3] :=
  schedule_save_single_and_isolated 3 0 5 (by decide)


/-- Claim C7: when the outbound send of the model reply fails, no bot turn
is appended — the History Store after the failed send equals the store
immediately before the send attempt, which is the store with only the
inbound user turn appended. -/
theorem on_message_send_failure_preserves_history
    (st : Store) (sess : Sessions) (m : Msg) (env : MsgEnv) (now : Nat)
    (hbot : m.authorIsBot = false) (hment : m.mentionFirst = true)
    (hsess : ensure_channel_session sess m.ch env.sessionCreateOk ≠ none)
    (hgen : env.genResult ≠ none) (hsend : env.sendOk = false) :
    (on_message st sess m env now).1
      = append_user_turn st m.ch m.author m.content m.createdAt := by
  unfold on_message
  rw [hbot, hment]
  obtain ⟨sess1, hs⟩ := Option.ne_none_iff_exists.mp hsess
  obtain ⟨raw, hg⟩ := Option.ne_none_iff_exists.mp hgen
  rw [← hs, ← hg, hsend]
  simp


/-- Witness for on_message_send_failure_preserves_history at a concrete
message whose send fails. -/
theorem on_message_send_failure_preserves_history_witness :
    (on_message [] [] ⟨"9", false, ⟨"7", "ann", none⟩, "hi", 4, true, "@bot"⟩
        ⟨true, some "reply", false⟩ 6).1
      = append_user_turn [] "9" ⟨"7", "ann", none⟩ "hi" 4 :=
  on_message_send_failure_preserves_history [] []
    ⟨"9", false, ⟨"7", "ann", none⟩, "hi", 4, true, "@bot"⟩
    ⟨true, some "reply", false⟩ 6 rfl rfl (by decide) (by decide) rfl

